import Mathlib

/-!
Shallow embedding of the match-resolution core of the tournify-val-dm
repository (src/app/routers/matches.py and src/app/models.py), together
with theorems settling the frozen claims about it.

Conventions of the embedding:
* Python machine floats that only carry exact small decimal values
  (timestamps, combat scores, percentages) are modelled as rationals.
* The one place where IEEE binary64 rounding is observable —
  required_count = int(total_players * 0.7) in find_common_match_id —
  is modelled bit-exactly over Nat (see requiredCount below).
* HTTP calls are abstracted as explicit outcome values handed to the
  functions that consume them; a function of the source that performs a
  request becomes a function of the corresponding outcome.
* Python exceptions that a function catches internally disappear from its
  type (the function is total); exceptions crossing a boundary are Except.
-/

namespace TournifyValDM

/-- ParticipantIdentity (models.PlayerInfo): equality and hashing are
structural over the four string fields. -/
structure PlayerInfo where
  name : String
  tag : String
  region : String
  platform : String
deriving DecidableEq

/-- models.PlayerStats: per-player canonical statistics.  kills is a Python
int; average_combat_score is a float carrying an exact small value,
modelled as a rational. -/
structure PlayerStats where
  player_info : PlayerInfo
  kills : Int
  average_combat_score : ℚ
deriving DecidableEq

/-- models.LeaderboardEntry. -/
structure LeaderboardEntry where
  rank : Nat
  player_info : PlayerInfo
  kills : Int
  average_combat_score : ℚ
deriving DecidableEq

/-- models.MatchValidationResponse. -/
structure MatchValidationResponse where
  match_id : String
  players_with_match : List PlayerInfo
  players_without_match : List PlayerInfo
  percentage_with_match : ℚ
  validation_passed : Bool
  message : String
  alternative_match_id : Option String
  match_details_verified : Bool
  time_verification_passed : Option Bool
  map_verification_passed : Option Bool
deriving DecidableEq

/-- A FastAPI HTTPException as seen by the caller: status code and detail. -/
structure HTTPError where
  status : Nat
  detail : String
deriving DecidableEq

/-! ### History source client (get_player_match_history) -/

/-- The metadata of one match in the history payload.  started_at:
none = key absent; some none = present but unparseable
(datetime.fromisoformat raises); some (some t) = parsed instant, modelled
as epoch seconds.  match_id: none = key absent or null. -/
structure MatchMeta where
  started_at : Option (Option Int)
  match_id : Option String
deriving DecidableEq

/-- Body of a 200 history response: either response.json() raises
(malformed) or it yields a list of match objects. -/
inductive HistoryPayload
  | malformed
  | parsed (ms : List MatchMeta)
deriving DecidableEq

/-- Outcome of the outbound history request: a transport error (timeout,
connection failure — anything that makes client.get raise) or an HTTP
response with a status code and body. -/
inductive FetchOutcome
  | transportError
  | httpResponse (status : Nat) (payload : HistoryPayload)
deriving DecidableEq

/-- The filtering loop of get_player_match_history: keep a match when its
started_at parses, is not older than the cutoff, and a truthy (non-empty)
match_id is present. -/
def extractRecentIds (cutoff : Int) : List MatchMeta → List String
  | [] => []
  | m :: rest =>
    let tail := extractRecentIds cutoff rest
    match m.started_at with
    | none => tail
    | some none => tail
    | some (some t) =>
      if cutoff ≤ t then
        match m.match_id with
        | some mid => if mid = "" then tail else mid :: tail
        | none => tail
      else tail

/-- get_player_match_history: total — every transport error, non-200
status or malformed payload yields the empty history. -/
def getPlayerMatchHistory (cutoff : Int) : FetchOutcome → List String
  | .transportError => []
  | .httpResponse status payload =>
    if status = 200 then
      match payload with
      | .malformed => []
      | .parsed ms => extractRecentIds cutoff ms
    else []

/-! ### History aggregation (validate_match_history, lines 106–118) -/

/-- asyncio.gather(..., return_exceptions=True) normalization: a task that
raised is recorded as the empty history. -/
def normalizeTask : Except String (List String) → List String
  | .error _ => []
  | .ok ms => ms

/-- Key list of the aggregated mapping. -/
def dictKeys (m : List (PlayerInfo × List String)) : List PlayerInfo :=
  m.map Prod.fst

/-- Python dict assignment d[k] = v: overwrite in place when the key is
present (keeping its position), append otherwise. -/
def dictInsert (m : List (PlayerInfo × List String)) (k : PlayerInfo)
    (v : List String) : List (PlayerInfo × List String) :=
  if k ∈ dictKeys m then
    m.map (fun kv => if kv.1 = k then (k, v) else kv)
  else m ++ [(k, v)]

/-- The all_player_matches dict: one gather result per request entry,
normalized and keyed by the player. -/
def buildHistoryMap (players : List PlayerInfo)
    (tasks : PlayerInfo → Except String (List String)) :
    List (PlayerInfo × List String) :=
  players.foldl (fun m p => dictInsert m p (normalizeTask (tasks p))) []

/-- The per-player task of the fan-out: a get_player_match_history call.
It never raises, so the gather result is always ok. -/
def historyTasks (f : PlayerInfo → FetchOutcome) (cutoff : Int) :
    PlayerInfo → Except String (List String) :=
  fun p => .ok (getPlayerMatchHistory cutoff (f p))

/-! ### Consensus resolver (find_common_match_id) -/

/-- The 53-bit significand of the IEEE binary64 value nearest to 0.7:
0.7 rounds to 6305039478318694 / 2^53. -/
def floatMantissa07 : Nat := 6305039478318694

/-- Fuelled bit length; the fuel of 128 covers every value that occurs as
n * floatMantissa07 with n below 2^53 (the range in which a Python int
converts to binary64 exactly). -/
def bitLenAux : Nat → Nat → Nat
  | 0, _ => 0
  | fuel + 1, m => if m = 0 then 0 else bitLenAux fuel (m / 2) + 1

/-- Bit length of a natural number below 2^128. -/
def bitLen (m : Nat) : Nat := bitLenAux 128 m

/-- Round v / 2^s to the nearest integer, ties to even. -/
def roundHalfEven (v s : Nat) : Nat :=
  let q := v / 2 ^ s
  let r := v % 2 ^ s
  if 2 ^ s < 2 * r then q + 1
  else if 2 * r < 2 ^ s then q
  else if q % 2 = 0 then q else q + 1

/-- required_count = int(total_players * 0.7) of find_common_match_id,
modelled bit-exactly: the exact product n * floatMantissa07 (scaled by
2^53) is rounded to a 53-bit significand (nearest, ties to even) and the
resulting binary64 value is truncated towards zero. -/
def requiredCount (n : Nat) : Nat :=
  let v := n * floatMantissa07
  let b := bitLen v
  if b ≤ 53 then v / 2 ^ 53
  else roundHalfEven v (b - 53) * 2 ^ (b - 53) / 2 ^ 53

/-- total_players = len(request.players): the number of request entries,
duplicates included. -/
def validateTotalPlayers (players : List PlayerInfo) : Nat := players.length

/-- The flattening loop of find_common_match_id: all match ids of all
aggregated histories, in mapping order. -/
def flattenHistories (m : List (PlayerInfo × List String)) : List String :=
  (m.map Prod.snd).flatten

/-- Occurrence count of one match id in the flattened multiset
(Counter[match_id]). -/
def countOcc (l : List String) (x : String) : Nat := l.count x

/-- Key insertion order of Counter(l): each id at its first occurrence. -/
def firstOccurrences : List String → List String
  | [] => []
  | x :: rest => x :: (firstOccurrences rest).filter (fun y => y ≠ x)

/-- Stable insertion into a list sorted by occurrence count descending:
x goes in front of the first element whose count does not exceed its
own (so an earlier-inserted id precedes later ids of equal count). -/
def insertByCount (l : List String) (x : String) : List String → List String
  | [] => [x]
  | y :: rest =>
    if countOcc l y ≤ countOcc l x then x :: y :: rest
    else y :: insertByCount l x rest

/-- Stable sort by occurrence count descending. -/
def sortByCountDesc (l : List String) : List String → List String
  | [] => []
  | x :: rest => insertByCount l x (sortByCountDesc l rest)

/-- Counter(l).most_common(): the distinct ids in first-occurrence order,
stably sorted by count descending. -/
def mostCommon (l : List String) : List String :=
  sortByCountDesc l (firstOccurrences l)

/-- find_common_match_id: first id of most_common whose count reaches the
required support, with its support percentage; (None, 0) otherwise. -/
def findCommonMatchId (m : List (PlayerInfo × List String))
    (totalPlayers : Nat) : Option String × ℚ :=
  let allMatchIds := flattenHistories m
  let required := requiredCount totalPlayers
  match (mostCommon allMatchIds).find?
      (fun mid => decide (required ≤ countOcc allMatchIds mid)) with
  | some mid =>
    (some mid, (countOcc allMatchIds mid : ℚ) / (totalPlayers : ℚ) * 100)
  | none => (none, 0)

/-- The iteration order the specification describes: a strictly precedes b
when a has the larger count, or counts tie and a was encountered first in
the flattened multiset. -/
def precedes (l : List String) (a b : String) : Prop :=
  countOcc l b < countOcc l a ∨
    (countOcc l a = countOcc l b ∧ l.indexOf a < l.indexOf b)

/-! ### Detail verifier (verify_match_details) -/

/-- Outcome of the match-details request.  body: none = response.json()
raises; some (gameStart, mapName) = the metadata fields data.metadata
.game_start and data.metadata.map (none = key absent or null). -/
inductive DetailsResponse
  | transportError
  | httpResponse (status : Nat) (body : Option (Option ℚ × Option String))
deriving DecidableEq

/-- Absolute value, written out so that it evaluates by reduction;
ratAbs_eq_abs identifies it with the lattice absolute value. -/
def ratAbs (q : ℚ) : ℚ := if q < 0 then -q else q

/-- str.lower() of the map names.  The source compares ASCII map names;
Python's full-Unicode lowering agrees with per-character ASCII lowering
on them. -/
def strLower (s : String) : String := ⟨s.data.map Char.toLower⟩

/-- The tuple verify_match_details returns: (verified, time_passed,
map_passed, message). -/
structure VerifyResult where
  verified : Bool
  time_passed : Option Bool
  map_passed : Option Bool
  message : String
deriving DecidableEq

/-- verify_match_details.  The source checks the two metadata fields for
falsiness (absent, zero start time, empty map name all count as invalid
data), then computes the two independent checks: |actual − expected| ≤
300 seconds and case-insensitive map equality. -/
def verify_match_details (resp : DetailsResponse) (expected_start : ℚ)
    (expected_map : String) : VerifyResult :=
  match resp with
  | .transportError =>
    ⟨false, none, none, "Error verifying match details"⟩
  | .httpResponse status body =>
    if status = 200 then
      match body with
      | none => ⟨false, none, none, "Error verifying match details"⟩
      | some (gameStart, mapName) =>
        match gameStart, mapName with
        | some t, some mname =>
          if t = 0 ∨ mname = "" then
            ⟨false, none, none, "Invalid match data received"⟩
          else
            let timeOk := decide (ratAbs (t - expected_start) ≤ 300)
            let mapOk := strLower mname = strLower expected_map
            ⟨timeOk && mapOk, some timeOk, some mapOk,
              if timeOk && mapOk then "Match details verified successfully"
              else "Match details verification failed"⟩
        | _, _ => ⟨false, none, none, "Invalid match data received"⟩
    else ⟨false, none, none, "Failed to fetch match details"⟩

/-! ### Orchestrator (validate_match_history) -/

/-- The partitioning loop over all_player_matches.items(): a player joins
players_with_match when the common id occurs in their own history. -/
def partitionPlayers (mid : String) :
    List (PlayerInfo × List String) → List PlayerInfo × List PlayerInfo
  | [] => ([], [])
  | (p, hist) :: rest =>
    if mid ∈ hist then
      (p :: (partitionPlayers mid rest).1, (partitionPlayers mid rest).2)
    else
      ((partitionPlayers mid rest).1, p :: (partitionPlayers mid rest).2)

/-- The response of the branch where no common match id was found. -/
def noQuorumResponse (players : List PlayerInfo) : MatchValidationResponse :=
  { match_id := ""
    players_with_match := []
    players_without_match := players
    percentage_with_match := 0
    validation_passed := false
    message := "Validation failed! No match ID found that 70% of players share."
    alternative_match_id := none
    match_details_verified := false
    time_verification_passed := none
    map_verification_passed := none }

/-- The try-block of validate_match_history: reject an empty player list
(an HTTPException escaping the block), aggregate, resolve, partition,
verify, and assemble the response.  The source guards the common id with
a truthiness test, so an empty-string id takes the no-quorum branch. -/
def validateMatchHistoryBody (players : List PlayerInfo)
    (tasks : PlayerInfo → Except String (List String))
    (details : String → DetailsResponse)
    (expected_start : ℚ) (expected_map : String) :
    Except HTTPError MatchValidationResponse :=
  if players = [] then .error ⟨400, "Players list cannot be empty"⟩
  else
    match findCommonMatchId (buildHistoryMap players tasks)
        (validateTotalPlayers players) with
    | (none, _) => .ok (noQuorumResponse players)
    | (some common_match_id, percentage_with_match) =>
      if common_match_id = "" then .ok (noQuorumResponse players)
      else
        .ok
          { match_id := common_match_id
            players_with_match := (partitionPlayers common_match_id
              (buildHistoryMap players tasks)).1
            players_without_match := (partitionPlayers common_match_id
              (buildHistoryMap players tasks)).2
            percentage_with_match := percentage_with_match
            validation_passed := (verify_match_details
              (details common_match_id) expected_start expected_map).verified
            message :=
              if (verify_match_details (details common_match_id)
                  expected_start expected_map).verified
              then "Validation passed!"
              else "Match details verification failed"
            alternative_match_id := none
            match_details_verified := (verify_match_details
              (details common_match_id) expected_start expected_map).verified
            time_verification_passed := (verify_match_details
              (details common_match_id) expected_start expected_map).time_passed
            map_verification_passed := (verify_match_details
              (details common_match_id) expected_start
              expected_map).map_passed }

/-- The whole endpoint handler: the enclosing except-Exception clause
catches every exception of the body — including the explicitly raised
400 HTTPException — and re-raises it as a 500 internal server error. -/
def validate_match_history (players : List PlayerInfo)
    (tasks : PlayerInfo → Except String (List String))
    (details : String → DetailsResponse)
    (expected_start : ℚ) (expected_map : String) :
    Except HTTPError MatchValidationResponse :=
  match validateMatchHistoryBody players tasks details expected_start
      expected_map with
  | .error e => .error ⟨500, "Internal server error: " ++ e.detail⟩
  | .ok r => .ok r

/-- Status code of the response, none on a structured (200) result. -/
def errorStatus (r : Except HTTPError MatchValidationResponse) :
    Option Nat :=
  match r with
  | .error e => some e.status
  | .ok _ => none

/-! ### Rank builder (create_leaderboard) -/

/-- The composite sort key comparison, descending: Python sorts by the
tuple (kills, average_combat_score) with reverse=True; this holds when x
may come before y. -/
def statKeyGe (x y : PlayerStats) : Bool :=
  if x.kills = y.kills then
    decide (y.average_combat_score ≤ x.average_combat_score)
  else decide (y.kills < x.kills)

/-- Stable insertion for the descending composite key. -/
def insertStat (x : PlayerStats) : List PlayerStats → List PlayerStats
  | [] => [x]
  | y :: rest =>
    if statKeyGe x y then x :: y :: rest else y :: insertStat x rest

/-- Stable sort by kills descending, then average combat score descending
(the unique stable descending order Python's sorted(..., reverse=True)
produces for this key). -/
def sortStatsDesc : List PlayerStats → List PlayerStats
  | [] => []
  | x :: rest => insertStat x (sortStatsDesc rest)

/-- The loop body assembling one LeaderboardEntry from a 0-based position
and the player statistics at it: rank is position + 1. -/
def mkEntry (ip : Nat × PlayerStats) : LeaderboardEntry :=
  ⟨ip.1 + 1, ip.2.player_info, ip.2.kills, ip.2.average_combat_score⟩

/-- create_leaderboard.  allowed_players is the optional second argument;
the source guards it by truthiness, so None and the empty list both skip
the membership filter. -/
def create_leaderboard (players : List PlayerStats)
    (allowed_players : Option (List PlayerInfo)) : List LeaderboardEntry :=
  let filtered_players :=
    match allowed_players with
    | some allowed =>
      if allowed = [] then players
      else players.filter (fun p => decide (p.player_info ∈ allowed))
    | none => players
  (sortStatsDesc filtered_players).enum.map mkEntry

/-- The statistics a leaderboard entry carries. -/
def entryStat (e : LeaderboardEntry) : PlayerStats :=
  ⟨e.player_info, e.kills, e.average_combat_score⟩

/-- Structured (200) result of the endpoint, none on an HTTPException. -/
def okResponse (r : Except HTTPError MatchValidationResponse) :
    Option MatchValidationResponse :=
  match r with
  | .ok resp => some resp
  | .error _ => none

/-! ### Concrete fixtures for witnesses and counterexamples -/

/-- A first concrete participant. -/
def xP1 : PlayerInfo := ⟨"HystericalBat", "3571", "ap", "pc"⟩

/-- A second concrete participant. -/
def xP2 : PlayerInfo := ⟨"i miss her", "01819", "ap", "pc"⟩

/-- A third concrete participant. -/
def xP3 : PlayerInfo := ⟨"Shafaath07", "7372", "ap", "pc"⟩

/-- A concrete match identifier. -/
def mId1 : String := "M1"

/-- Another concrete match identifier. -/
def mId2 : String := "M2"

/-- A concrete aggregated history: two of three participants share mId1. -/
def xMap1 : List (PlayerInfo × List String) :=
  [(xP1, [mId1]), (xP2, [mId1]), (xP3, [mId2])]

/-- A concrete map name. -/
def mapAsc : String := "Ascent"

/-- The same map name in upper case. -/
def mapAscUp : String := "ASCENT"

/-- Gather results in which every lookup failed. -/
def xTasksFail : PlayerInfo → Except String (List String) :=
  fun _ => .error ("timeout")

/-- Gather results: xP1 and xP2 report mId1, everyone else nothing. -/
def xTasks1 : PlayerInfo → Except String (List String) :=
  fun p => if p = xP1 then .ok [mId1] else if p = xP2 then .ok [mId1] else .ok []

/-- A details endpoint whose record matches time 100 and map Ascent. -/
def xDetails1 : String → DetailsResponse :=
  fun _ => .httpResponse 200 (some (some 100, some mapAsc))

/-- A concrete request list with a duplicated identity. -/
def dupPlayers : List PlayerInfo := [xP1, xP1]

/-- A concrete raw history fetch: xP3's lookup hits a transport error;
everyone else reports one fresh match mId1 and one stale match mId2. -/
def xFetch1 : PlayerInfo → FetchOutcome :=
  fun p =>
    if p = xP3 then .transportError
    else .httpResponse 200 (.parsed
      [⟨some (some 50), some mId1⟩, ⟨some (some (-100)), some mId2⟩])

/-- The concrete response of the pipeline on the three-player request
driven by xFetch1 (cutoff 0) and xDetails1. -/
def xResp1 : MatchValidationResponse :=
  match validate_match_history [xP1, xP2, xP3] (historyTasks xFetch1 0)
      xDetails1 100 mapAsc with
  | .ok r => r
  | .error _ => noQuorumResponse []

/-- The stats of the ranking example: kills 10, 10, 5 with combat scores
200, 250, 300. -/
def exStats : List PlayerStats := [⟨xP1, 10, 200⟩, ⟨xP2, 10, 250⟩, ⟨xP3, 5, 300⟩]

/-- The requested set of the ranking example. -/
def exAllowed : List PlayerInfo := [xP1, xP2, xP3]

/-- The expected leaderboard of the ranking example. -/
def exExpected : List LeaderboardEntry :=
  [⟨1, xP2, 10, 250⟩, ⟨2, xP1, 10, 200⟩, ⟨3, xP3, 5, 300⟩]

/-! ## Lemmas about the consensus resolver -/

theorem ratAbs_eq_abs (q : ℚ) : ratAbs q = |q| := by
  unfold ratAbs
  split
  · exact (abs_of_neg (by assumption)).symm
  · exact (abs_of_nonneg (not_lt.mp (by assumption))).symm

theorem mem_firstOccurrences {a : String} :
    ∀ {l : List String}, a ∈ firstOccurrences l ↔ a ∈ l
  | [] => Iff.rfl
  | x :: rest => by
    unfold firstOccurrences
    simp only [List.mem_cons, List.mem_filter, decide_eq_true_eq,
      @mem_firstOccurrences a rest]
    by_cases hax : a = x
    · simp [hax]
    · simp [hax]

theorem pairwise_filter_of_pairwise {p : String → Bool}
    {R S : String → String → Prop}
    (h : ∀ a b, p a = true → p b = true → R a b → S a b) :
    ∀ {s : List String}, s.Pairwise R → (s.filter p).Pairwise S
  | [], _ => by simp
  | x :: rest, hp => by
    rcases List.pairwise_cons.mp hp with ⟨hx, hrest⟩
    by_cases hpx : p x = true
    · rw [List.filter_cons_of_pos hpx]
      refine List.pairwise_cons.mpr ⟨?_, pairwise_filter_of_pairwise h hrest⟩
      intro b hb
      rcases List.mem_filter.mp hb with ⟨hbmem, hpb⟩
      exact h x b hpx hpb (hx b hbmem)
    · rw [List.filter_cons_of_neg hpx]
      exact pairwise_filter_of_pairwise h hrest

theorem pairwise_indexOf_firstOccurrences :
    ∀ (l : List String),
      (firstOccurrences l).Pairwise (fun a b => l.indexOf a < l.indexOf b)
  | [] => List.Pairwise.nil
  | x :: rest => by
    unfold firstOccurrences
    refine List.pairwise_cons.mpr ⟨?_, ?_⟩
    · intro b hb
      rcases List.mem_filter.mp hb with ⟨_, hbx⟩
      have hbx' : b ≠ x := by simpa using hbx
      rw [List.indexOf_cons_self, List.indexOf_cons_ne rest (Ne.symm hbx')]
      exact Nat.succ_pos _
    · refine pairwise_filter_of_pairwise ?_
        (pairwise_indexOf_firstOccurrences rest)
      intro a b ha hb hab
      have ha' : a ≠ x := by simpa using ha
      have hb' : b ≠ x := by simpa using hb
      rw [List.indexOf_cons_ne rest (Ne.symm ha'),
        List.indexOf_cons_ne rest (Ne.symm hb')]
      exact Nat.succ_lt_succ hab

theorem precedes_irrefl {l : List String} {a : String} :
    ¬ precedes l a a := by
  rintro (h | ⟨_, h⟩) <;> exact lt_irrefl _ h

theorem precedes_asymm {l : List String} {a b : String}
    (h1 : precedes l a b) (h2 : precedes l b a) : False := by
  rcases h1 with h1 | ⟨e1, h1⟩ <;> rcases h2 with h2 | ⟨e2, h2⟩ <;> omega

theorem mem_insertByCount {l : List String} {x a : String} :
    ∀ {s : List String}, a ∈ insertByCount l x s ↔ a = x ∨ a ∈ s
  | [] => by simp [insertByCount]
  | y :: rest => by
    unfold insertByCount
    split
    · simp [List.mem_cons]
    · simp only [List.mem_cons, mem_insertByCount]
      tauto

theorem pairwise_insertByCount {l : List String} {x : String} :
    ∀ {s : List String},
      (∀ y ∈ s, l.indexOf x < l.indexOf y) →
      s.Pairwise (precedes l) →
      (insertByCount l x s).Pairwise (precedes l)
  | [], _, _ => List.pairwise_cons.mpr ⟨by simp, List.Pairwise.nil⟩
  | y :: rest, hidx, hp => by
    rcases List.pairwise_cons.mp hp with ⟨hy, hrest⟩
    unfold insertByCount
    split
    · rename_i hcnt
      refine List.pairwise_cons.mpr ⟨?_, hp⟩
      intro z hz
      rcases List.mem_cons.mp hz with rfl | hz
      · rcases Nat.lt_or_ge (countOcc l z) (countOcc l x) with hlt | hge
        · exact Or.inl hlt
        · have he : countOcc l x = countOcc l z := le_antisymm hge hcnt
          exact Or.inr ⟨he, hidx z (List.mem_cons_self _ _)⟩
      · rcases hy z hz with hlt | ⟨he, _⟩
        · exact Or.inl (lt_of_lt_of_le hlt hcnt)
        · rcases Nat.lt_or_ge (countOcc l z) (countOcc l x) with hlt | hge
          · exact Or.inl hlt
          · have he2 : countOcc l x = countOcc l z := by omega
            exact Or.inr ⟨he2, hidx z (List.mem_cons_of_mem _ hz)⟩
    · rename_i hcnt
      refine List.pairwise_cons.mpr ⟨?_, ?_⟩
      · intro z hz
        rcases mem_insertByCount.mp hz with rfl | hz
        · exact Or.inl (Nat.lt_of_not_le hcnt)
        · exact hy z hz
      · exact pairwise_insertByCount
          (fun z hz => hidx z (List.mem_cons_of_mem y hz)) hrest

theorem mem_sortByCountDesc {l : List String} {a : String} :
    ∀ {s : List String}, a ∈ sortByCountDesc l s ↔ a ∈ s
  | [] => Iff.rfl
  | x :: rest => by
    unfold sortByCountDesc
    rw [mem_insertByCount, mem_sortByCountDesc, List.mem_cons]

theorem pairwise_sortByCountDesc {l : List String} :
    ∀ {s : List String},
      s.Pairwise (fun a b => l.indexOf a < l.indexOf b) →
      (sortByCountDesc l s).Pairwise (precedes l)
  | [], _ => List.Pairwise.nil
  | x :: rest, hp => by
    rcases List.pairwise_cons.mp hp with ⟨hx, hrest⟩
    unfold sortByCountDesc
    exact pairwise_insertByCount
      (fun y hy => hx y (mem_sortByCountDesc.mp hy))
      (pairwise_sortByCountDesc hrest)

theorem mem_mostCommon {l : List String} {a : String} :
    a ∈ mostCommon l ↔ a ∈ l := by
  unfold mostCommon
  rw [mem_sortByCountDesc, mem_firstOccurrences]

theorem pairwise_mostCommon (l : List String) :
    (mostCommon l).Pairwise (precedes l) :=
  pairwise_sortByCountDesc (pairwise_indexOf_firstOccurrences l)

theorem find?_first_of_pairwise {l : List String} {p : String → Bool}
    {mid : String} :
    ∀ {s : List String}, s.Pairwise (precedes l) →
      s.find? p = some mid →
      p mid = true ∧ ∀ a ∈ s, precedes l a mid → p a = false
  | [], _, h => by simp at h
  | x :: rest, hp, h => by
    rcases List.pairwise_cons.mp hp with ⟨hx, hrest⟩
    by_cases hpx : p x = true
    · rw [List.find?_cons_of_pos rest hpx] at h
      cases h
      refine ⟨hpx, ?_⟩
      intro a ha hprec
      rcases List.mem_cons.mp ha with rfl | ha
      · exact absurd hprec precedes_irrefl
      · exact absurd hprec (fun hprec => precedes_asymm (hx a ha) hprec)
    · rw [List.find?_cons_of_neg rest hpx] at h
      rcases find?_first_of_pairwise hrest h with ⟨hmid, hall⟩
      refine ⟨hmid, ?_⟩
      intro a ha hprec
      rcases List.mem_cons.mp ha with rfl | ha
      · exact Bool.eq_false_iff.mpr hpx
      · exact hall a ha hprec

/-! ## Claim C1 -/

/-- C1: find_common_match_id flattens the aggregated histories into one
multiset, counts occurrences per match id, iterates the ids in descending
count order with ties broken by first-encountered insertion order in the
flattened multiset, and returns the first id whose count reaches the
required support, with support fraction count / N * 100; when no id
reaches the threshold it returns the none sentinel (with fraction 0).
The returned id reaches the threshold while every id that strictly
precedes it in that iteration order stays below it, and the sentinel is
returned exactly when every id stays below the threshold. -/
theorem findCommonMatchId_consensus
    (m : List (PlayerInfo × List String)) (n : Nat) :
    (∀ mid, (findCommonMatchId m n).1 = some mid →
        mid ∈ flattenHistories m ∧
        requiredCount n ≤ countOcc (flattenHistories m) mid ∧
        (findCommonMatchId m n).2 =
          (countOcc (flattenHistories m) mid : ℚ) / (n : ℚ) * 100 ∧
        ∀ mid2 ∈ flattenHistories m,
          precedes (flattenHistories m) mid2 mid →
          countOcc (flattenHistories m) mid2 < requiredCount n) ∧
    ((findCommonMatchId m n).1 = none →
        (findCommonMatchId m n).2 = 0 ∧
        ∀ mid ∈ flattenHistories m,
          countOcc (flattenHistories m) mid < requiredCount n) := by
  constructor
  · intro mid hmid
    cases hfind : (mostCommon (flattenHistories m)).find?
        (fun x => decide (requiredCount n ≤ countOcc (flattenHistories m) x))
        with
    | none =>
      exfalso
      have hnone : (findCommonMatchId m n).1 = none := by
        simp [findCommonMatchId, hfind]
      rw [hnone] at hmid
      exact Option.noConfusion hmid
    | some mid0 =>
      have heq : findCommonMatchId m n =
          (some mid0,
            (countOcc (flattenHistories m) mid0 : ℚ) / (n : ℚ) * 100) := by
        simp [findCommonMatchId, hfind]
      have hmid0 : mid = mid0 := by
        rw [heq] at hmid
        exact (Option.some.inj hmid).symm
      subst hmid0
      rcases find?_first_of_pairwise (pairwise_mostCommon (flattenHistories m))
        hfind with ⟨hpass, hall⟩
      refine ⟨mem_mostCommon.mp (List.mem_of_find?_eq_some hfind),
        of_decide_eq_true hpass, by rw [heq], ?_⟩
      intro mid2 hmem hprec
      have hfail := hall mid2 (mem_mostCommon.mpr hmem) hprec
      have : ¬ requiredCount n ≤ countOcc (flattenHistories m) mid2 :=
        of_decide_eq_false hfail
      omega
  · intro hnone
    cases hfind : (mostCommon (flattenHistories m)).find?
        (fun x => decide (requiredCount n ≤ countOcc (flattenHistories m) x))
        with
    | some mid0 =>
      exfalso
      have hsome : (findCommonMatchId m n).1 = some mid0 := by
        simp [findCommonMatchId, hfind]
      rw [hnone] at hsome
      exact Option.noConfusion hsome
    | none =>
      refine ⟨by simp [findCommonMatchId, hfind], ?_⟩
      intro mid hmem
      have hfail := List.find?_eq_none.mp hfind mid (mem_mostCommon.mpr hmem)
      simp only [decide_eq_true_eq] at hfail
      omega

/-- Witness for C1: on the aggregated history xMap1 of three players the
resolver selects mId1, which reaches the required support 2 while every
strictly preceding id stays below it. -/
theorem findCommonMatchId_consensus_witness :
    mId1 ∈ flattenHistories xMap1 ∧
    requiredCount 3 ≤ countOcc (flattenHistories xMap1) mId1 ∧
    (findCommonMatchId xMap1 3).2 =
      (countOcc (flattenHistories xMap1) mId1 : ℚ) / ((3 : ℕ) : ℚ) * 100 ∧
    ∀ mid2 ∈ flattenHistories xMap1,
      precedes (flattenHistories xMap1) mid2 mId1 →
      countOcc (flattenHistories xMap1) mid2 < requiredCount 3 :=
  (findCommonMatchId_consensus xMap1 3).1 mId1 (by decide)

/-! ## Claim C2 -/

theorem floor_seven_tenths (n : ℕ) :
    Nat.floor ((n : ℚ) * (7 / 10)) = 7 * n / 10 := by
  have h : (n : ℚ) * (7 / 10) = ((7 * n : ℕ) : ℚ) / ((10 : ℕ) : ℚ) := by
    push_cast
    ring
  rw [h, Nat.floor_div_nat, Nat.floor_natCast]

/-- C2 counterexample: on the request dupPlayers = two copies of the same
identity, the resolver threshold is computed from the request length
(int(2 * 0.7) = 1), not from the distinct-identity count 1, whose exact
floor is 0; and even for distinct identities the threshold deviates from
the exact floor: at N = 90 the source computes int(90 * 0.7) = 62 in
binary64 while floor(90 * 0.70) = 63. -/
theorem requiredSupport_claim_cex :
    requiredCount (validateTotalPlayers dupPlayers) = 1 ∧
    Nat.floor ((dupPlayers.dedup.length : ℚ) * (7 / 10)) = 0 ∧
    requiredCount 90 = 62 ∧
    Nat.floor (((90 : ℕ) : ℚ) * (7 / 10)) = 63 ∧
    (1 : ℕ) ≠ 0 ∧ (62 : ℕ) ≠ 63 := by
  refine ⟨by decide, ?_, by decide, ?_, by decide, by decide⟩
  · rw [floor_seven_tenths]
    decide
  · rw [floor_seven_tenths]

/-- C2 amended: the required support is int(N * 0.7) evaluated in IEEE
binary64 arithmetic, where N is the number of entries of the request's
players list (duplicates included, so not the distinct-identity count).
For every N ≤ 89 this agrees with the exact floor(N * 0.70); it deviates
for larger N, first at N = 90 where it yields 62 instead of 63. -/
theorem requiredSupport_amended :
    (∀ players : List PlayerInfo,
      validateTotalPlayers players = players.length) ∧
    (∀ n : Nat, n ≤ 89 →
      requiredCount n = Nat.floor ((n : ℚ) * (7 / 10))) ∧
    requiredCount 90 = 62 ∧
    Nat.floor (((90 : ℕ) : ℚ) * (7 / 10)) = 63 := by
  have hdec : ∀ n : Nat, n ≤ 89 → requiredCount n = 7 * n / 10 := by
    set_option maxRecDepth 8000 in decide
  refine ⟨fun _ => rfl, ?_, by decide, ?_⟩
  · intro n hn
    rw [floor_seven_tenths]
    exact hdec n hn
  · rw [floor_seven_tenths]

/-- Witness for the amended C2: at N = 35 the binary64 threshold agrees
with the exact floor. -/
theorem requiredSupport_amended_witness :
    requiredCount 35 = Nat.floor (((35 : ℕ) : ℚ) * (7 / 10)) ∧ 35 ≤ 89 :=
  ⟨requiredSupport_amended.2.1 35 (by decide), by decide⟩

/-! ## Lemmas about the aggregated history mapping -/

theorem dictKeys_dictInsert (m : List (PlayerInfo × List String))
    (k : PlayerInfo) (v : List String) :
    dictKeys (dictInsert m k v) =
      if k ∈ dictKeys m then dictKeys m else dictKeys m ++ [k] := by
  unfold dictInsert
  by_cases h : k ∈ dictKeys m
  · rw [if_pos h, if_pos h]
    unfold dictKeys
    rw [List.map_map]
    apply List.map_congr_left
    intro kv _
    by_cases hk : kv.1 = k
    · simp [Function.comp, hk]
    · simp [Function.comp, hk]
  · rw [if_neg h, if_neg h]
    unfold dictKeys
    simp

theorem mem_dictInsert_self (m : List (PlayerInfo × List String))
    (k : PlayerInfo) (v : List String) : (k, v) ∈ dictInsert m k v := by
  unfold dictInsert
  split
  · rename_i h
    unfold dictKeys at h
    rcases List.mem_map.mp h with ⟨kv, hkv, hk⟩
    refine List.mem_map.mpr ⟨kv, hkv, ?_⟩
    rw [if_pos hk]
  · exact List.mem_append.mpr (Or.inr (List.mem_singleton.mpr rfl))

theorem mem_dictInsert_of_ne {m : List (PlayerInfo × List String)}
    {k : PlayerInfo} {v : List String} {q : PlayerInfo} {hq : List String}
    (hne : q ≠ k) (hmem : (q, hq) ∈ m) : (q, hq) ∈ dictInsert m k v := by
  unfold dictInsert
  split
  · refine List.mem_map.mpr ⟨(q, hq), hmem, ?_⟩
    rw [if_neg hne]
  · exact List.mem_append.mpr (Or.inl hmem)

theorem mem_dictInsert_elim {m : List (PlayerInfo × List String)}
    {k : PlayerInfo} {v : List String} {kv : PlayerInfo × List String}
    (h : kv ∈ dictInsert m k v) : kv = (k, v) ∨ kv ∈ m := by
  unfold dictInsert at h
  split at h
  · rcases List.mem_map.mp h with ⟨kv0, hkv0, heq⟩
    by_cases hk : kv0.1 = k
    · rw [if_pos hk] at heq
      exact Or.inl heq.symm
    · rw [if_neg hk] at heq
      exact Or.inr (heq ▸ hkv0)
  · rcases List.mem_append.mp h with h | h
    · exact Or.inr h
    · exact Or.inl (List.mem_singleton.mp h)

theorem dictKeys_nodup_dictInsert {m : List (PlayerInfo × List String)}
    {k : PlayerInfo} {v : List String} (h : (dictKeys m).Nodup) :
    (dictKeys (dictInsert m k v)).Nodup := by
  rw [dictKeys_dictInsert]
  split
  · exact h
  · rename_i hk
    rw [List.nodup_append]
    refine ⟨h, List.nodup_singleton k, ?_⟩
    intro a ha hak
    rw [List.mem_singleton.mp hak] at ha
    exact hk ha

theorem foldl_dict_inv (tasks : PlayerInfo → Except String (List String)) :
    ∀ (players : List PlayerInfo) (m : List (PlayerInfo × List String)),
      (∀ kv ∈ m, kv.2 = normalizeTask (tasks kv.1)) →
      ∀ kv ∈ players.foldl
        (fun acc p => dictInsert acc p (normalizeTask (tasks p))) m,
        kv.2 = normalizeTask (tasks kv.1)
  | [], _, hm => hm
  | p :: rest, m, hm => by
    rw [List.foldl_cons]
    refine foldl_dict_inv tasks rest _ ?_
    intro kv hkv
    rcases mem_dictInsert_elim hkv with rfl | hkv
    · rfl
    · exact hm kv hkv

theorem foldl_dict_persist (tasks : PlayerInfo → Except String (List String))
    {q : PlayerInfo} :
    ∀ (players : List PlayerInfo) (m : List (PlayerInfo × List String)),
      (q, normalizeTask (tasks q)) ∈ m →
      (q, normalizeTask (tasks q)) ∈ players.foldl
        (fun acc p => dictInsert acc p (normalizeTask (tasks p))) m
  | [], _, h => h
  | p :: rest, m, h => by
    rw [List.foldl_cons]
    refine foldl_dict_persist tasks rest _ ?_
    by_cases hq : q = p
    · subst hq
      exact mem_dictInsert_self _ _ _
    · exact mem_dictInsert_of_ne hq h

theorem foldl_dict_mem (tasks : PlayerInfo → Except String (List String))
    {q : PlayerInfo} :
    ∀ (players : List PlayerInfo) (m : List (PlayerInfo × List String)),
      q ∈ players →
      (q, normalizeTask (tasks q)) ∈ players.foldl
        (fun acc p => dictInsert acc p (normalizeTask (tasks p))) m
  | [], _, h => absurd h (List.not_mem_nil q)
  | p :: rest, m, h => by
    rw [List.foldl_cons]
    rcases List.mem_cons.mp h with rfl | h
    · exact foldl_dict_persist tasks rest _ (mem_dictInsert_self _ _ _)
    · exact foldl_dict_mem tasks rest _ h

theorem foldl_dict_keys_sub (tasks : PlayerInfo → Except String (List String)) :
    ∀ (players : List PlayerInfo) (m : List (PlayerInfo × List String))
      {q : PlayerInfo},
      q ∈ dictKeys (players.foldl
        (fun acc p => dictInsert acc p (normalizeTask (tasks p))) m) →
      q ∈ dictKeys m ∨ q ∈ players
  | [], _, _, h => Or.inl h
  | p :: rest, m, q, h => by
    rw [List.foldl_cons] at h
    rcases foldl_dict_keys_sub tasks rest _ h with h | h
    · rw [dictKeys_dictInsert] at h
      split at h
      · exact Or.inl h
      · rcases List.mem_append.mp h with h | h
        · exact Or.inl h
        · rw [List.mem_singleton.mp h]
          exact Or.inr (List.mem_cons_self _ _)
    · exact Or.inr (List.mem_cons_of_mem _ h)

theorem foldl_dict_keys_nodup
    (tasks : PlayerInfo → Except String (List String)) :
    ∀ (players : List PlayerInfo) (m : List (PlayerInfo × List String)),
      (dictKeys m).Nodup →
      (dictKeys (players.foldl
        (fun acc p => dictInsert acc p (normalizeTask (tasks p))) m)).Nodup
  | [], _, h => h
  | p :: rest, m, h => by
    rw [List.foldl_cons]
    exact foldl_dict_keys_nodup tasks rest _ (dictKeys_nodup_dictInsert h)

theorem buildHistoryMap_mem_pair
    {players : List PlayerInfo}
    {tasks : PlayerInfo → Except String (List String)} {q : PlayerInfo}
    (hq : q ∈ players) :
    (q, normalizeTask (tasks q)) ∈ buildHistoryMap players tasks :=
  foldl_dict_mem tasks players [] hq

theorem buildHistoryMap_val
    {players : List PlayerInfo}
    {tasks : PlayerInfo → Except String (List String)}
    {kv : PlayerInfo × List String} (h : kv ∈ buildHistoryMap players tasks) :
    kv.2 = normalizeTask (tasks kv.1) :=
  foldl_dict_inv tasks players [] (by simp) kv h

theorem buildHistoryMap_keys_sub
    {players : List PlayerInfo}
    {tasks : PlayerInfo → Except String (List String)} {q : PlayerInfo}
    (h : q ∈ dictKeys (buildHistoryMap players tasks)) : q ∈ players := by
  rcases foldl_dict_keys_sub tasks players [] h with h | h
  · simp [dictKeys] at h
  · exact h

theorem buildHistoryMap_keys_nodup
    (players : List PlayerInfo)
    (tasks : PlayerInfo → Except String (List String)) :
    (dictKeys (buildHistoryMap players tasks)).Nodup :=
  foldl_dict_keys_nodup tasks players [] (by simp [dictKeys])

theorem value_unique {m : List (PlayerInfo × List String)}
    (hnd : (dictKeys m).Nodup) :
    ∀ {q : PlayerInfo} {h1 h2 : List String},
      (q, h1) ∈ m → (q, h2) ∈ m → h1 = h2 := by
  induction m with
  | nil => intro q h1 h2 h _; exact absurd h (List.not_mem_nil _)
  | cons kv rest ih =>
    have hnd' : (dictKeys rest).Nodup ∧ kv.1 ∉ dictKeys rest := by
      rcases List.pairwise_cons.mp hnd with ⟨hhead, htail⟩
      exact ⟨htail, fun hmem => by
        rcases List.mem_map.mp hmem with ⟨kv2, hkv2, hk⟩
        exact hhead kv2.1 (List.mem_map_of_mem Prod.fst hkv2) hk.symm⟩
    intro q h1 h2 hm1 hm2
    rcases List.mem_cons.mp hm1 with he1 | he1 <;>
      rcases List.mem_cons.mp hm2 with he2 | he2
    · rw [← he1] at he2
      exact (Prod.mk.injEq _ _ _ _).mp he2 |>.2.symm
    · exfalso
      apply hnd'.2
      have hq : q ∈ dictKeys rest := List.mem_map_of_mem Prod.fst he2
      rw [← he1]
      exact hq
    · exfalso
      apply hnd'.2
      have hq : q ∈ dictKeys rest := List.mem_map_of_mem Prod.fst he1
      rw [← he2]
      exact hq
    · exact ih hnd'.1 he1 he2

/-! ## Lemmas about the partitioning loop -/

theorem partitionPlayers_fst (mid : String) :
    ∀ m : List (PlayerInfo × List String),
      (partitionPlayers mid m).1 =
        (m.filter (fun kv => decide (mid ∈ kv.2))).map Prod.fst
  | [] => rfl
  | (p, hist) :: rest => by
    unfold partitionPlayers
    by_cases h : mid ∈ hist
    · simp [h, List.filter_cons, partitionPlayers_fst mid rest]
    · simp [h, List.filter_cons, partitionPlayers_fst mid rest]

theorem partitionPlayers_snd (mid : String) :
    ∀ m : List (PlayerInfo × List String),
      (partitionPlayers mid m).2 =
        (m.filter (fun kv => ! decide (mid ∈ kv.2))).map Prod.fst
  | [] => rfl
  | (p, hist) :: rest => by
    unfold partitionPlayers
    by_cases h : mid ∈ hist
    · simp [h, List.filter_cons, partitionPlayers_snd mid rest]
    · simp [h, List.filter_cons, partitionPlayers_snd mid rest]

theorem mem_partitionPlayers_fst {mid : String}
    {m : List (PlayerInfo × List String)} {q : PlayerInfo} :
    q ∈ (partitionPlayers mid m).1 ↔ ∃ h, (q, h) ∈ m ∧ mid ∈ h := by
  rw [partitionPlayers_fst]
  constructor
  · intro hq
    rcases List.mem_map.mp hq with ⟨kv, hkv, hk⟩
    rcases List.mem_filter.mp hkv with ⟨hmem, hpred⟩
    exact ⟨kv.2, by rw [← hk]; exact hmem, of_decide_eq_true hpred⟩
  · rintro ⟨h, hmem, hin⟩
    exact List.mem_map.mpr ⟨(q, h),
      List.mem_filter.mpr ⟨hmem, decide_eq_true hin⟩, rfl⟩

theorem mem_partitionPlayers_snd {mid : String}
    {m : List (PlayerInfo × List String)} {q : PlayerInfo} :
    q ∈ (partitionPlayers mid m).2 ↔ ∃ h, (q, h) ∈ m ∧ mid ∉ h := by
  rw [partitionPlayers_snd]
  constructor
  · intro hq
    rcases List.mem_map.mp hq with ⟨kv, hkv, hk⟩
    rcases List.mem_filter.mp hkv with ⟨hmem, hpred⟩
    refine ⟨kv.2, by rw [← hk]; exact hmem, ?_⟩
    simpa using hpred
  · rintro ⟨h, hmem, hin⟩
    refine List.mem_map.mpr ⟨(q, h), List.mem_filter.mpr ⟨hmem, ?_⟩, rfl⟩
    simpa using hin

theorem partitionPlayers_fst_nodup {mid : String}
    {m : List (PlayerInfo × List String)} (h : (dictKeys m).Nodup) :
    (partitionPlayers mid m).1.Nodup := by
  rw [partitionPlayers_fst]
  exact h.sublist (List.Sublist.map Prod.fst (List.filter_sublist m))

theorem partitionPlayers_snd_nodup {mid : String}
    {m : List (PlayerInfo × List String)} (h : (dictKeys m).Nodup) :
    (partitionPlayers mid m).2.Nodup := by
  rw [partitionPlayers_snd]
  exact h.sublist (List.Sublist.map Prod.fst (List.filter_sublist m))

/-! ## Claim C3 -/

/-- C3: get_player_match_history never raises — a transport error, a
non-success status and a malformed payload each yield the empty history —
and the aggregation step records every requested participant in the
mapping, a participant whose gather task failed being recorded with an
empty history rather than omitted. -/
theorem historyClient_fail_to_empty :
    (∀ cutoff : Int, getPlayerMatchHistory cutoff .transportError = []) ∧
    (∀ (cutoff : Int) (s : Nat) (p : HistoryPayload), s ≠ 200 →
      getPlayerMatchHistory cutoff (.httpResponse s p) = []) ∧
    (∀ (cutoff : Int) (s : Nat),
      getPlayerMatchHistory cutoff (.httpResponse s .malformed) = []) ∧
    (∀ (players : List PlayerInfo)
      (tasks : PlayerInfo → Except String (List String)) (q : PlayerInfo),
      q ∈ players →
      (q, normalizeTask (tasks q)) ∈ buildHistoryMap players tasks) ∧
    (∀ (players : List PlayerInfo)
      (tasks : PlayerInfo → Except String (List String)) (q : PlayerInfo)
      (e : String), q ∈ players → tasks q = .error e →
      (q, ([] : List String)) ∈ buildHistoryMap players tasks) := by
  refine ⟨fun _ => rfl, ?_, ?_, ?_, ?_⟩
  · intro cutoff s p hs
    simp [getPlayerMatchHistory, hs]
  · intro cutoff s
    by_cases hs : s = 200 <;> simp [getPlayerMatchHistory, hs]
  · intro players tasks q hq
    exact buildHistoryMap_mem_pair hq
  · intro players tasks q e hq he
    have h := @buildHistoryMap_mem_pair players tasks q hq
    rw [he] at h
    simpa [normalizeTask] using h

/-- Witness for C3: a 404 yields the empty history, and the participant
xP1 whose task failed still appears in the aggregated mapping, with an
empty history. -/
theorem historyClient_fail_to_empty_witness :
    getPlayerMatchHistory 0 (.httpResponse 404 (.parsed [])) = [] ∧
    (xP1, ([] : List String)) ∈ buildHistoryMap [xP1] xTasksFail :=
  ⟨historyClient_fail_to_empty.2.1 0 404 (.parsed []) (by decide),
    historyClient_fail_to_empty.2.2.2.2 [xP1] xTasksFail xP1 ("timeout")
      (List.mem_cons_self _ _) rfl⟩

/-! ## Claim C5 -/

/-- C5 amended: whenever the resolver returns the none sentinel on a
non-empty request, the endpoint returns a structured response with
validation_passed = false, players_with_match empty, and
players_without_match carrying the entire requested participant list. -/
theorem noQuorum_response (players : List PlayerInfo)
    (tasks : PlayerInfo → Except String (List String))
    (details : String → DetailsResponse) (es : ℚ) (em : String)
    (hne : players ≠ [])
    (hnone : (findCommonMatchId (buildHistoryMap players tasks)
      (validateTotalPlayers players)).1 = none) :
    ∃ resp, validate_match_history players tasks details es em = .ok resp ∧
      resp.validation_passed = false ∧
      resp.players_with_match = [] ∧
      resp.players_without_match = players := by
  refine ⟨noQuorumResponse players, ?_, rfl, rfl, rfl⟩
  unfold validate_match_history validateMatchHistoryBody
  rw [if_neg hne]
  cases hfc : findCommonMatchId (buildHistoryMap players tasks)
      (validateTotalPlayers players) with
  | mk o pct =>
    rw [hfc] at hnone
    cases o with
    | none => rfl
    | some mid => exact absurd hnone (by simp)

/-- Witness for the amended C5 on a concrete request whose histories are
all empty. -/
theorem noQuorum_response_witness :
    ∃ resp, validate_match_history dupPlayers xTasksFail xDetails1 100 mapAsc
      = .ok resp ∧
      resp.validation_passed = false ∧
      resp.players_with_match = [] ∧
      resp.players_without_match = dupPlayers :=
  noQuorum_response dupPlayers xTasksFail xDetails1 100 mapAsc (by decide)
    (by decide)

/-- C5 counterexample: on a concrete request where the resolver returns
the none sentinel, the response carries the full non-empty request list in
players_without_match, so the two partitions are not both empty. -/
theorem noQuorum_partitions_cex :
    (findCommonMatchId (buildHistoryMap dupPlayers xTasksFail)
      (validateTotalPlayers dupPlayers)).1 = none ∧
    (okResponse (validate_match_history dupPlayers xTasksFail xDetails1 100
        mapAsc)).map
      (fun resp => (resp.validation_passed, resp.players_with_match,
        resp.players_without_match)) =
      some (false, [], dupPlayers) ∧
    dupPlayers ≠ [] :=
  ⟨rfl, rfl, by decide⟩

/-! ## Claim C6 -/

/-- C6: a request with an empty participant list is rejected before any
aggregation with an explicitly raised 400 caller error, but the handler's
blanket exception clause catches that very exception, so the caller
observes a 500 internal server error instead of a 400 caller error. -/
theorem emptyPlayers_reported_as_500 :
    ∀ (tasks : PlayerInfo → Except String (List String))
      (details : String → DetailsResponse) (es : ℚ) (em : String),
      validateMatchHistoryBody [] tasks details es em =
        .error ⟨400, "Players list cannot be empty"⟩ ∧
      errorStatus (validate_match_history [] tasks details es em) =
        some 500 :=
  fun _ _ _ _ => ⟨rfl, rfl⟩

/-! ## Claim C9 -/

/-- C9: whenever the endpoint reaches the partitioning step (the resolver
returned an identifier, observable as a non-empty match_id), every
requested participant lies in exactly one of the two partitions — the
partitions are exhaustive over the requested set, disjoint, and free of
duplicates — and membership in players_with_match is decided by testing
the resolved identifier against that participant's own aggregated
history. -/
theorem validate_partitions
    (players : List PlayerInfo) (f : PlayerInfo → FetchOutcome) (cutoff : Int)
    (details : String → DetailsResponse) (es : ℚ) (em : String)
    (r : MatchValidationResponse)
    (hok : validate_match_history players (historyTasks f cutoff) details es em
      = .ok r)
    (hid : r.match_id ≠ "") :
    (∀ p, p ∈ players ↔
      (p ∈ r.players_with_match ∨ p ∈ r.players_without_match)) ∧
    (∀ p, ¬ (p ∈ r.players_with_match ∧ p ∈ r.players_without_match)) ∧
    r.players_with_match.Nodup ∧
    r.players_without_match.Nodup ∧
    (∀ p h, (p, h) ∈ buildHistoryMap players (historyTasks f cutoff) →
      (p ∈ r.players_with_match ↔ r.match_id ∈ h)) := by
  unfold validate_match_history at hok
  cases hbody : validateMatchHistoryBody players (historyTasks f cutoff)
      details es em with
  | error e =>
    rw [hbody] at hok
    exact absurd hok (by simp)
  | ok r2 =>
    rw [hbody] at hok
    have hr : r2 = r := by simpa using hok
    subst hr
    unfold validateMatchHistoryBody at hbody
    by_cases hne : players = []
    · rw [if_pos hne] at hbody
      exact absurd hbody (by simp)
    · rw [if_neg hne] at hbody
      cases hfc : findCommonMatchId
          (buildHistoryMap players (historyTasks f cutoff))
          (validateTotalPlayers players) with
      | mk o pct =>
        rw [hfc] at hbody
        cases o with
        | none =>
          have : noQuorumResponse players = r2 := by simpa using hbody
          rw [← this] at hid
          exact absurd rfl hid
        | some mid =>
          by_cases hmid : mid = ""
          · rw [hmid] at hbody
            simp only [if_pos rfl] at hbody
            have hnq : noQuorumResponse players = r2 := by simpa using hbody
            rw [← hnq] at hid
            exact absurd rfl hid
          · simp only [if_neg hmid] at hbody
            have hrec := (Except.ok.inj hbody).symm
            have hwith : r2.players_with_match =
                (partitionPlayers mid
                  (buildHistoryMap players (historyTasks f cutoff))).1 := by
              rw [hrec]
            have hwithout : r2.players_without_match =
                (partitionPlayers mid
                  (buildHistoryMap players (historyTasks f cutoff))).2 := by
              rw [hrec]
            have hmatch : r2.match_id = mid := by rw [hrec]
            have hnd := buildHistoryMap_keys_nodup players (historyTasks f cutoff)
            refine ⟨?_, ?_, ?_, ?_, ?_⟩
            · intro p
              rw [hwith, hwithout]
              constructor
              · intro hp
                have hpair := @buildHistoryMap_mem_pair players
                  (historyTasks f cutoff) p hp
                by_cases hin : mid ∈ normalizeTask (historyTasks f cutoff p)
                · exact Or.inl (mem_partitionPlayers_fst.mpr ⟨_, hpair, hin⟩)
                · exact Or.inr (mem_partitionPlayers_snd.mpr ⟨_, hpair, hin⟩)
              · rintro (hp | hp)
                · rcases mem_partitionPlayers_fst.mp hp with ⟨h, hmem, _⟩
                  exact buildHistoryMap_keys_sub
                    (List.mem_map_of_mem Prod.fst hmem)
                · rcases mem_partitionPlayers_snd.mp hp with ⟨h, hmem, _⟩
                  exact buildHistoryMap_keys_sub
                    (List.mem_map_of_mem Prod.fst hmem)
            · intro p
              rw [hwith, hwithout]
              rintro ⟨hp1, hp2⟩
              rcases mem_partitionPlayers_fst.mp hp1 with ⟨h1, hmem1, hin1⟩
              rcases mem_partitionPlayers_snd.mp hp2 with ⟨h2, hmem2, hin2⟩
              rw [value_unique hnd hmem1 hmem2] at hin1
              exact hin2 hin1
            · rw [hwith]
              exact partitionPlayers_fst_nodup hnd
            · rw [hwithout]
              exact partitionPlayers_snd_nodup hnd
            · intro p h hmem
              rw [hwith, hmatch]
              constructor
              · intro hp
                rcases mem_partitionPlayers_fst.mp hp with ⟨h2, hmem2, hin2⟩
                rw [value_unique hnd hmem2 hmem] at hin2
                exact hin2
              · intro hin
                exact mem_partitionPlayers_fst.mpr ⟨h, hmem, hin⟩

/-- Witness for C9 on a concrete three-player request where xP1 and xP2
report mId1 and xP3 does not. -/
theorem validate_partitions_witness :
    (∀ p, p ∈ [xP1, xP2, xP3] ↔
      (p ∈ xResp1.players_with_match ∨ p ∈ xResp1.players_without_match)) ∧
    (∀ p, ¬ (p ∈ xResp1.players_with_match ∧
      p ∈ xResp1.players_without_match)) ∧
    xResp1.players_with_match.Nodup ∧
    xResp1.players_without_match.Nodup ∧
    (∀ p h,
      (p, h) ∈ buildHistoryMap [xP1, xP2, xP3] (historyTasks xFetch1 0) →
      (p ∈ xResp1.players_with_match ↔ xResp1.match_id ∈ h)) :=
  validate_partitions [xP1, xP2, xP3] xFetch1 0 xDetails1 100 mapAsc xResp1
    rfl (by decide)

/-! ## Claim C4 -/

/-- C4: on a reachable canonical record that carries both required fields,
the verifier computes two independent sub-checks and surfaces both next to
the overall result, which is exactly their conjunction; the time check
passes iff the absolute difference of actual and expected start time is at
most 300 seconds (the bound is inclusive: a difference of exactly 300
passes, 301 fails, as the closed conjuncts pin down), and the map check
passes iff the two map names agree ignoring case. -/
theorem verifyDetails_two_axes :
    (∀ (t : ℚ) (mname : String) (es : ℚ) (em : String),
      t ≠ 0 → mname ≠ "" →
      ∃ timeOk mapOk : Bool,
        (verify_match_details (.httpResponse 200 (some (some t, some mname)))
          es em).verified = (timeOk && mapOk) ∧
        (verify_match_details (.httpResponse 200 (some (some t, some mname)))
          es em).time_passed = some timeOk ∧
        (verify_match_details (.httpResponse 200 (some (some t, some mname)))
          es em).map_passed = some mapOk ∧
        (timeOk = true ↔ |t - es| ≤ 300) ∧
        (mapOk = true ↔ strLower mname = strLower em)) ∧
    (verify_match_details (.httpResponse 200 (some (some 300, some mapAscUp)))
      0 mapAsc).verified = true ∧
    (verify_match_details (.httpResponse 200 (some (some 301, some mapAsc)))
      0 mapAsc).time_passed = some false := by
  refine ⟨?_, ?_, ?_⟩
  · intro t mname es em ht hm
    have hcond : ¬ (t = 0 ∨ mname = "") := not_or.mpr ⟨ht, hm⟩
    refine ⟨decide (ratAbs (t - es) ≤ 300),
      decide (strLower mname = strLower em), ?_, ?_, ?_, ?_, ?_⟩
    · simp [verify_match_details, hcond]
    · simp [verify_match_details, hcond]
    · simp [verify_match_details, hcond]
    · rw [decide_eq_true_eq, ratAbs_eq_abs]
    · rw [decide_eq_true_eq]
  · simp only [verify_match_details]
    norm_num [ratAbs]
    decide
  · simp only [verify_match_details]
    norm_num [ratAbs]
    rw [if_neg (show ¬ mapAsc = "" by decide)]

/-- Witness for C4 at a concrete reachable record: actual time 300 against
expected 0, actual map ASCENT against expected Ascent. -/
theorem verifyDetails_two_axes_witness :
    ∃ timeOk mapOk : Bool,
      (verify_match_details (.httpResponse 200
        (some (some 300, some mapAscUp))) 0 mapAsc).verified =
        (timeOk && mapOk) ∧
      (verify_match_details (.httpResponse 200
        (some (some 300, some mapAscUp))) 0 mapAsc).time_passed =
        some timeOk ∧
      (verify_match_details (.httpResponse 200
        (some (some 300, some mapAscUp))) 0 mapAsc).map_passed =
        some mapOk ∧
      (timeOk = true ↔ |(300 : ℚ) - 0| ≤ 300) ∧
      (mapOk = true ↔ strLower mapAscUp = strLower mapAsc) :=
  verifyDetails_two_axes.1 300 mapAscUp 0 mapAsc (by norm_num) (by decide)

/-! ## Claim C7 -/

/-- C7: whenever the canonical record is unreachable (transport error or
non-success status) or its payload is missing a required field (start time
or map, including an unparseable body), the verifier reports verified =
false with both sub-checks indeterminate (none), a value distinct from a
determinate some false. -/
theorem verifyDetails_indeterminate (resp : DetailsResponse) (es : ℚ)
    (em : String)
    (h : resp = .transportError ∨
      (∃ s b, resp = .httpResponse s b ∧ s ≠ 200) ∨
      (∃ s, resp = .httpResponse s none) ∨
      (∃ s mn, resp = .httpResponse s (some (none, mn))) ∨
      (∃ s gs, resp = .httpResponse s (some (gs, none)))) :
    (verify_match_details resp es em).verified = false ∧
    (verify_match_details resp es em).time_passed = none ∧
    (verify_match_details resp es em).map_passed = none ∧
    (verify_match_details resp es em).time_passed ≠ some false ∧
    (verify_match_details resp es em).map_passed ≠ some false := by
  have hout : (verify_match_details resp es em).verified = false ∧
      (verify_match_details resp es em).time_passed = none ∧
      (verify_match_details resp es em).map_passed = none := by
    rcases h with rfl | ⟨s, b, rfl, hs⟩ | ⟨s, rfl⟩ | ⟨s, mn, rfl⟩ |
        ⟨s, gs, rfl⟩
    · exact ⟨rfl, rfl, rfl⟩
    · simp [verify_match_details, hs]
    · by_cases hs : s = 200 <;> simp [verify_match_details, hs]
    · by_cases hs : s = 200 <;> cases mn <;> simp [verify_match_details, hs]
    · by_cases hs : s = 200 <;> cases gs <;> simp [verify_match_details, hs]
  refine ⟨hout.1, hout.2.1, hout.2.2, ?_, ?_⟩
  · rw [hout.2.1]
    exact Option.noConfusion
  · rw [hout.2.2]
    exact Option.noConfusion

/-- Witness for C7 at a concrete unreachable record (status 404). -/
theorem verifyDetails_indeterminate_witness :
    (verify_match_details (.httpResponse 404 none) 0 mapAsc).verified =
      false ∧
    (verify_match_details (.httpResponse 404 none) 0 mapAsc).time_passed =
      none ∧
    (verify_match_details (.httpResponse 404 none) 0 mapAsc).map_passed =
      none ∧
    (verify_match_details (.httpResponse 404 none) 0 mapAsc).time_passed ≠
      some false ∧
    (verify_match_details (.httpResponse 404 none) 0 mapAsc).map_passed ≠
      some false :=
  verifyDetails_indeterminate (.httpResponse 404 none) 0 mapAsc
    (Or.inr (Or.inl ⟨404, none, rfl, by decide⟩))

/-! ## Lemmas about the rank builder -/

/-- The descending composite order of the specification: larger kill count
first, average combat score breaking ties. -/
def statGe (x y : PlayerStats) : Prop :=
  y.kills < x.kills ∨
    (x.kills = y.kills ∧ y.average_combat_score ≤ x.average_combat_score)

theorem statKeyGe_iff {x y : PlayerStats} :
    statKeyGe x y = true ↔ statGe x y := by
  unfold statKeyGe statGe
  by_cases h : x.kills = y.kills <;> simp [h]

theorem statGe_of_not {x y : PlayerStats} (h : ¬ statGe x y) : statGe y x := by
  unfold statGe at *
  by_cases hk : x.kills = y.kills
  · refine Or.inr ⟨hk.symm, ?_⟩
    rcases le_total y.average_combat_score x.average_combat_score with hle | hle
    · exact absurd (Or.inr ⟨hk, hle⟩) h
    · exact hle
  · rcases lt_trichotomy x.kills y.kills with hlt | he | hlt
    · exact Or.inl hlt
    · exact absurd he hk
    · exact absurd (Or.inl hlt) h

theorem statGe_trans {x y z : PlayerStats} (h1 : statGe x y)
    (h2 : statGe y z) : statGe x z := by
  unfold statGe at *
  rcases h1 with h1 | ⟨he1, hs1⟩ <;> rcases h2 with h2 | ⟨he2, hs2⟩
  · exact Or.inl (h2.trans h1)
  · exact Or.inl (he2 ▸ h1)
  · exact Or.inl (he1 ▸ h2)
  · exact Or.inr ⟨he1.trans he2, hs2.trans hs1⟩

theorem mem_insertStat {x z : PlayerStats} :
    ∀ {s : List PlayerStats}, z ∈ insertStat x s ↔ z = x ∨ z ∈ s
  | [] => by simp [insertStat]
  | y :: rest => by
    unfold insertStat
    split
    · simp [List.mem_cons]
    · simp only [List.mem_cons, mem_insertStat]
      tauto

theorem insertStat_perm (x : PlayerStats) :
    ∀ (s : List PlayerStats), (insertStat x s).Perm (x :: s)
  | [] => List.Perm.refl _
  | y :: rest => by
    unfold insertStat
    split
    · exact List.Perm.refl _
    · exact ((insertStat_perm x rest).cons y).trans (List.Perm.swap x y rest)

theorem sortStatsDesc_perm :
    ∀ (s : List PlayerStats), (sortStatsDesc s).Perm s
  | [] => List.Perm.refl _
  | x :: rest =>
    (insertStat_perm x (sortStatsDesc rest)).trans
      ((sortStatsDesc_perm rest).cons x)

theorem pairwise_insertStat {x : PlayerStats} :
    ∀ {s : List PlayerStats}, s.Pairwise statGe →
      (insertStat x s).Pairwise statGe
  | [], _ => List.pairwise_cons.mpr ⟨by simp, List.Pairwise.nil⟩
  | y :: rest, hp => by
    rcases List.pairwise_cons.mp hp with ⟨hy, hrest⟩
    unfold insertStat
    split
    · rename_i hxy
      refine List.pairwise_cons.mpr ⟨?_, hp⟩
      intro z hz
      rcases List.mem_cons.mp hz with rfl | hz
      · exact statKeyGe_iff.mp hxy
      · exact statGe_trans (statKeyGe_iff.mp hxy) (hy z hz)
    · rename_i hxy
      refine List.pairwise_cons.mpr ⟨?_, pairwise_insertStat hrest⟩
      intro z hz
      rcases mem_insertStat.mp hz with rfl | hz
      · exact statGe_of_not (fun hge => hxy (statKeyGe_iff.mpr hge))
      · exact hy z hz

theorem pairwise_sortStatsDesc :
    ∀ (s : List PlayerStats), (sortStatsDesc s).Pairwise statGe
  | [] => List.Pairwise.nil
  | _ :: rest => pairwise_insertStat (pairwise_sortStatsDesc rest)

theorem map_entryStat_mkEntry (l : List PlayerStats) :
    (l.enum.map mkEntry).map entryStat = l := by
  rw [List.map_map]
  have h : entryStat ∘ mkEntry = Prod.snd := funext fun ip => rfl
  rw [h, List.enum_map_snd]

theorem enumFrom_map_fst_succ :
    ∀ (n : Nat) (l : List PlayerStats),
      (List.enumFrom n l).map (fun ip => ip.1 + 1) =
        List.range' (n + 1) l.length
  | _, [] => rfl
  | n, x :: xs => by
    simp only [List.enumFrom, List.map_cons, List.length_cons, List.range']
    exact congrArg (List.cons (n + 1)) (enumFrom_map_fst_succ (n + 1) xs)

theorem pairwise_enumFrom {l : List PlayerStats} (hp : l.Pairwise statGe) :
    ∀ n : Nat, (List.enumFrom n l).Pairwise (fun a b => statGe a.2 b.2) := by
  induction hp with
  | nil => intro n; exact List.Pairwise.nil
  | cons hx _ ih =>
    intro n
    refine List.pairwise_cons.mpr ⟨?_, ih (n + 1)⟩
    intro b hb
    apply hx
    have hsnd : b.2 ∈ List.map Prod.snd (List.enumFrom (n + 1) _) :=
      List.mem_map_of_mem Prod.snd hb
    rwa [List.enumFrom_map_snd] at hsnd

/-! ## Claim C8 -/

/-- C8: with a non-empty requested set, create_leaderboard keeps exactly
the stats whose identity lies in the requested set, orders them by kills
descending then average combat score descending, and assigns dense
1-based ranks by position, ties included; and on the example with kills
10, 10, 5 and scores 200, 250, 300 it produces exactly the expected
ranking (10, 250), (10, 200), (5, 300). -/
theorem leaderboard_filter_sort_rank :
    (∀ (players : List PlayerStats) (allowed : List PlayerInfo),
      allowed ≠ [] →
      ((create_leaderboard players (some allowed)).map entryStat).Perm
        (players.filter (fun p => decide (p.player_info ∈ allowed))) ∧
      (create_leaderboard players (some allowed)).map (fun e => e.rank) =
        List.range' 1 (create_leaderboard players (some allowed)).length ∧
      (create_leaderboard players (some allowed)).Pairwise (fun a b =>
        b.kills < a.kills ∨
          (a.kills = b.kills ∧
            b.average_combat_score ≤ a.average_combat_score))) ∧
    create_leaderboard exStats (some exAllowed) = exExpected := by
  constructor
  · intro players allowed hne
    have hcl : create_leaderboard players (some allowed) =
        (sortStatsDesc (players.filter
          (fun p => decide (p.player_info ∈ allowed)))).enum.map mkEntry := by
      simp [create_leaderboard, hne]
    refine ⟨?_, ?_, ?_⟩
    · rw [hcl, map_entryStat_mkEntry]
      exact sortStatsDesc_perm _
    · rw [hcl, List.map_map, List.length_map, List.enum_length]
      have h : ((fun e => e.rank) ∘ mkEntry) = fun ip : Nat × PlayerStats =>
          ip.1 + 1 := funext fun ip => rfl
      rw [h]
      exact enumFrom_map_fst_succ 0 _
    · rw [hcl]
      rw [List.pairwise_map]
      exact pairwise_enumFrom (pairwise_sortStatsDesc _) 0
  · rfl

/-- Witness for C8 at the example input: kills 10, 10, 5, scores 200,
250, 300, all three identities requested. -/
theorem leaderboard_filter_sort_rank_witness :
    ((create_leaderboard exStats (some exAllowed)).map entryStat).Perm
      (exStats.filter (fun p => decide (p.player_info ∈ exAllowed))) ∧
    (create_leaderboard exStats (some exAllowed)).map (fun e => e.rank) =
      List.range' 1 (create_leaderboard exStats (some exAllowed)).length ∧
    (create_leaderboard exStats (some exAllowed)).Pairwise (fun a b =>
      b.kills < a.kills ∨
        (a.kills = b.kills ∧
          b.average_combat_score ≤ a.average_combat_score)) :=
  leaderboard_filter_sort_rank.1 exStats exAllowed (by decide)

/-! ## Claim C10 -/

/-- C10: when the allowed-players argument is the empty list or omitted
(None), the membership filter is skipped and every canonical player stat
is ranked: the empty requested set yields the full leaderboard — one
entry per input stat, the two spellings agreeing — not an empty one. -/
theorem leaderboard_empty_filter_skipped (players : List PlayerStats) :
    create_leaderboard players (some []) = create_leaderboard players none ∧
    ((create_leaderboard players (some [])).map entryStat).Perm players ∧
    (create_leaderboard players (some [])).length = players.length := by
  refine ⟨rfl, ?_, ?_⟩
  · have hcl : create_leaderboard players (some []) =
        (sortStatsDesc players).enum.map mkEntry := rfl
    rw [hcl, map_entryStat_mkEntry]
    exact sortStatsDesc_perm _
  · have hcl : create_leaderboard players (some []) =
        (sortStatsDesc players).enum.map mkEntry := rfl
    rw [hcl, List.length_map, List.enum_length]
    exact (sortStatsDesc_perm players).length_eq

end TournifyValDM
